import Mathlib

/-!
Verification of the type-level natural-number relation system in
`src/main.rs` of rust-sqrt-irrational.

The Rust program represents natural numbers as the types `Zero` and
`Successor<N>`, and encodes arithmetic and ordering as traits whose
resolution by the compiler constitutes proof.  We embed:

* `TNat` — the closed type-level domain (`struct Zero`, `struct Successor<N: Nat>`).
* `reify` — the `Reify` trait's `OUTPUT` constant.
* For each trait relation, an inductive proposition whose constructors are
  exactly the `impl` blocks of the source (so "the relation resolves at
  these operands with this Output" is derivability in the inductive), and
  an executable companion function computing the associated `Output`
  (`Option`-valued where the source relation has no covering impl).
-/

namespace RustSqrtIrrational

/-- The type-level Peano naturals of the source: `struct Zero;` and
`struct Successor<N: Nat>`.  The domain is closed: these are the only
two value formers. -/
inductive TNat : Type where
| Zero : TNat
| Successor : TNat → TNat
deriving DecidableEq

/-- The `Reify` trait: `OUTPUT = 0` for `Zero` and `OUTPUT = 1 + N::OUTPUT`
for `Successor<N>`. -/
def reify : TNat → Nat
| .Zero => 0
| .Successor n => 1 + reify n

/-- Executable form of the `Sum` trait's associated `Output`:
`impl Sum<Zero> for A { type Output = A }` and
`impl Sum<Successor<B>> for A { type Output = <Successor<A> as Sum<B>>::Output }`. -/
def sumFn : TNat → TNat → TNat
| a, .Zero => a
| a, .Successor b => sumFn (.Successor a) b

/-- Executable form of the `Difference` trait's associated `Output`.
The source has impls only for `Difference<Zero> for A` and
`Difference<Successor<B>> for Successor<A>`; the absent case
`Difference<Successor<B>> for Zero` is `none` (resolution failure). -/
def differenceFn : TNat → TNat → Option TNat
| a, .Zero => some a
| .Successor a, .Successor b => differenceFn a b
| .Zero, .Successor _ => none

/-- Executable form of the `Product` trait's associated `Output`:
`impl Product<Zero> for A { type Output = Zero }` and
`impl Product<Successor<B>> for A { type Output = <<A as Product<B>>::Output as Sum<A>>::Output }`. -/
def productFn : TNat → TNat → TNat
| _, .Zero => .Zero
| a, .Successor b => sumFn (productFn a b) a

/-- Resolution of the `Sum` trait: `Sum a b o` holds exactly when the
compiler can resolve `<a as Sum<b>>` with `Output = o`.  One constructor
per `impl` block of the source. -/
inductive Sum : TNat → TNat → TNat → Prop where
| base (a : TNat) : Sum a .Zero a
| step {a b o : TNat} : Sum (.Successor a) b o → Sum a (.Successor b) o

/-- Resolution of the `Difference` trait: one constructor per `impl`
block; there is deliberately no constructor with `.Zero` as the first
operand and a successor as the second. -/
inductive Difference : TNat → TNat → TNat → Prop where
| base (a : TNat) : Difference a .Zero a
| step {a b o : TNat} : Difference a b o → Difference (.Successor a) (.Successor b) o

/-- Resolution of the `Product` trait: the successor impl carries the two
`where` bounds `A: Product<B>` and `<A as Product<B>>::Output: Sum<A>`. -/
inductive Product : TNat → TNat → TNat → Prop where
| base (a : TNat) : Product a .Zero .Zero
| step {a b p o : TNat} : Product a b p → Sum p a o → Product a (.Successor b) o

/-- Resolution of the `Congruent` trait: the single impl
`impl<A> Congruent<A> for A {}` makes the relation hold exactly on
syntactically identical operands. -/
inductive Congruent : TNat → TNat → Prop where
| refl (a : TNat) : Congruent a a

/-- Resolution of `LessThan`: `impl LessThan<B> for A where B: Difference<Successor<A>>`. -/
def LessThan (a b : TNat) : Prop := ∃ o, Difference b (.Successor a) o

/-- Resolution of `LessThanOrEqual`: `impl LessThanOrEqual<B> for A where B: Difference<A>`. -/
def LessThanOrEqual (a b : TNat) : Prop := ∃ o, Difference b a o

/-- Resolution of `GreaterThan`: `impl GreaterThan<B> for A where A: Difference<Successor<B>>`. -/
def GreaterThan (a b : TNat) : Prop := ∃ o, Difference a (.Successor b) o

/-- Resolution of `GreaterThanOrEqual`: `impl GreaterThanOrEqual<B> for A where A: Difference<B>`. -/
def GreaterThanOrEqual (a b : TNat) : Prop := ∃ o, Difference a b o

/-- Boolean decider for `Congruent` resolution. -/
def congruentB (a b : TNat) : Bool := decide (a = b)

/-- Boolean decider for `LessThan` resolution, read off its `where` clause. -/
def lessThanB (a b : TNat) : Bool := (differenceFn b (.Successor a)).isSome

/-- Boolean decider for `LessThanOrEqual` resolution, read off its `where` clause. -/
def lessThanOrEqualB (a b : TNat) : Bool := (differenceFn b a).isSome

/-- Boolean decider for `GreaterThan` resolution, read off its `where` clause. -/
def greaterThanB (a b : TNat) : Bool := (differenceFn a (.Successor b)).isSome

/-- Boolean decider for `GreaterThanOrEqual` resolution, read off its `where` clause. -/
def greaterThanOrEqualB (a b : TNat) : Bool := (differenceFn a b).isSome

/-- `type One = Successor<Zero>` from the source's lemma block. -/
def One : TNat := .Successor .Zero

/-- `type Two = Successor<One>`. -/
def Two : TNat := .Successor One

/-- `type Three = Successor<Two>`. -/
def Three : TNat := .Successor Two

/-- `type Four = Successor<Three>`. -/
def Four : TNat := .Successor Three

/-- `type Five = Successor<Four>`. -/
def Five : TNat := .Successor Four

/-- `type Six = Successor<Five>`. -/
def Six : TNat := .Successor Five

/-! ### Correspondence between trait resolution and the executable functions -/

/-- `Sum` resolution computes exactly `sumFn`. -/
theorem sum_iff_fn (a b o : TNat) : Sum a b o ↔ sumFn a b = o := by
  constructor
  · intro h
    induction h with
    | base a => rfl
    | step h ih => simpa [sumFn] using ih
  · intro h
    subst h
    induction b generalizing a with
    | Zero => exact Sum.base a
    | Successor b ih => exact Sum.step (ih (.Successor a))

/-- `Difference` resolution computes exactly `differenceFn`. -/
theorem difference_iff_fn (a b o : TNat) : Difference a b o ↔ differenceFn a b = some o := by
  constructor
  · intro h
    induction h with
    | base a => simp [differenceFn]
    | step h ih => simpa [differenceFn] using ih
  · intro h
    induction b generalizing a with
    | Zero =>
      simp only [differenceFn, Option.some_inj] at h
      subst h
      exact Difference.base a
    | Successor b ih =>
      cases a with
      | Zero => simp [differenceFn] at h
      | Successor a => exact Difference.step (ih a (by simpa [differenceFn] using h))

/-- `Product` resolution computes exactly `productFn`. -/
theorem product_iff_fn (a b o : TNat) : Product a b o ↔ productFn a b = o := by
  constructor
  · intro h
    induction h with
    | base => rfl
    | step hp hs ihp =>
      have hs' := (sum_iff_fn _ _ _).mp hs
      simp [productFn, ihp, hs']
  · intro h
    subst h
    induction b with
    | Zero => exact Product.base a
    | Successor b ih => exact Product.step ih ((sum_iff_fn _ _ _).mpr rfl)

/-! ### Semantics through `reify` -/

/-- `reify` respects `sumFn` as addition. -/
theorem reify_sumFn (a b : TNat) : reify (sumFn a b) = reify a + reify b := by
  induction b generalizing a with
  | Zero => simp [sumFn, reify]
  | Successor b ih =>
    have := ih (.Successor a)
    simp only [sumFn] at *
    simp [reify] at this ⊢
    omega

/-- `reify` is injective: structurally distinct domain values denote
distinct numbers. -/
theorem reify_injective (a : TNat) : ∀ b, reify a = reify b → a = b := by
  induction a with
  | Zero =>
    intro b h
    cases b with
    | Zero => rfl
    | Successor b =>
      simp only [reify] at h
      omega
  | Successor a ih =>
    intro b h
    cases b with
    | Zero =>
      simp only [reify] at h
      omega
    | Successor b =>
      simp only [reify] at h
      exact congrArg TNat.Successor (ih b (by omega))

/-- A successful `differenceFn` inverts addition on reifications. -/
theorem differenceFn_reify (a b c : TNat) (h : differenceFn a b = some c) :
    reify b + reify c = reify a := by
  induction b generalizing a with
  | Zero =>
    simp only [differenceFn, Option.some_inj] at h
    subst h
    simp [reify]
  | Successor b ih =>
    cases a with
    | Zero => simp [differenceFn] at h
    | Successor a =>
      have := ih a (by simpa [differenceFn] using h)
      simp [reify]
      omega

/-- `differenceFn` succeeds exactly when the subtrahend does not exceed
the minuend. -/
theorem differenceFn_isSome_iff (a b : TNat) :
    (differenceFn a b).isSome = true ↔ reify b ≤ reify a := by
  induction b generalizing a with
  | Zero => simp [differenceFn, reify]
  | Successor b ih =>
    cases a with
    | Zero => simp [differenceFn, reify]
    | Successor a =>
      have := ih a
      simp only [differenceFn, reify]
      rw [this]
      omega

/-- Existence of a `Difference` resolution matches `differenceFn` success. -/
theorem difference_exists_iff (a b : TNat) :
    (∃ o, Difference a b o) ↔ (differenceFn a b).isSome = true := by
  simp only [difference_iff_fn]
  cases h : differenceFn a b with
  | none => simp
  | some c => simp

/-- `LessThan` resolution, numerically. -/
theorem lessThanB_eq (a b : TNat) : lessThanB a b = true ↔ reify a < reify b := by
  rw [lessThanB, differenceFn_isSome_iff]
  simp [reify]
  omega

/-- `LessThanOrEqual` resolution, numerically. -/
theorem lessThanOrEqualB_eq (a b : TNat) :
    lessThanOrEqualB a b = true ↔ reify a ≤ reify b := by
  rw [lessThanOrEqualB, differenceFn_isSome_iff]

/-- `GreaterThan` resolution, numerically. -/
theorem greaterThanB_eq (a b : TNat) : greaterThanB a b = true ↔ reify b < reify a := by
  rw [greaterThanB, differenceFn_isSome_iff]
  simp [reify]
  omega

/-- `GreaterThanOrEqual` resolution, numerically. -/
theorem greaterThanOrEqualB_eq (a b : TNat) :
    greaterThanOrEqualB a b = true ↔ reify b ≤ reify a := by
  rw [greaterThanOrEqualB, differenceFn_isSome_iff]

/-! ### Claims -/

/-- C1: `Difference` resolves `Difference(A, Zero) = A` and
`Difference(Successor(A), Successor(B)) = Difference(A, B)`, hence
`Difference(A, A) = Zero`; and it has no defining case for
`Difference(Zero, Successor(B))`, so that request fails (truncated,
not saturating or wrapping, subtraction). -/
theorem claim_C1 :
    (∀ a, Difference a .Zero a) ∧
    (∀ a b o, Difference (.Successor a) (.Successor b) o ↔ Difference a b o) ∧
    (∀ a, Difference a a .Zero) ∧
    (∀ b, differenceFn .Zero (.Successor b) = none) ∧
    (∀ a b o, Difference a b o ↔ differenceFn a b = some o) := by
  refine ⟨Difference.base, ?_, ?_, fun b => rfl, difference_iff_fn⟩
  · intro a b o
    constructor
    · intro h
      cases h with
      | step h => exact h
    · exact Difference.step
  · intro a
    induction a with
    | Zero => exact Difference.base .Zero
    | Successor a ih => exact Difference.step ih

/-- C2: each ordering relation resolves exactly when its single
`Difference` resolution succeeds: `LessThan(A,B)` iff
`Difference(B, Successor(A))`, `LessThanOrEqual(A,B)` iff
`Difference(B, A)`, `GreaterThan(A,B)` iff `Difference(A, Successor(B))`,
`GreaterThanOrEqual(A,B)` iff `Difference(A, B)`. -/
theorem claim_C2 : ∀ a b : TNat,
    (LessThan a b ↔ (differenceFn b (.Successor a)).isSome = true) ∧
    (LessThanOrEqual a b ↔ (differenceFn b a).isSome = true) ∧
    (GreaterThan a b ↔ (differenceFn a (.Successor b)).isSome = true) ∧
    (GreaterThanOrEqual a b ↔ (differenceFn a b).isSome = true) := by
  intro a b
  exact ⟨difference_exists_iff _ _, difference_exists_iff _ _,
    difference_exists_iff _ _, difference_exists_iff _ _⟩

/-- C3: `Sum` resolves `Sum(A, Zero) = A` and
`Sum(A, Successor(B)) = Sum(Successor(A), B)`, and is total: every pair
of domain values resolves (with output `sumFn`). -/
theorem claim_C3 :
    (∀ a, Sum a .Zero a) ∧
    (∀ a b o, Sum a (.Successor b) o ↔ Sum (.Successor a) b o) ∧
    (∀ a b, Sum a b (sumFn a b)) := by
  refine ⟨Sum.base, ?_, fun a b => (sum_iff_fn a b _).mpr rfl⟩
  intro a b o
  constructor
  · intro h
    cases h with
    | step h => exact h
  · exact Sum.step

/-- C4: `Product` resolves `Product(A, Zero) = Zero` and
`Product(A, Successor(B)) = Sum(Product(A, B), A)` (through a `Sum`
resolution at each step), and is total: every pair of domain values
resolves (with output `productFn`). -/
theorem claim_C4 :
    (∀ a, Product a .Zero .Zero) ∧
    (∀ a b o, Product a (.Successor b) o ↔ ∃ p, Product a b p ∧ Sum p a o) ∧
    (∀ a b, Product a b (productFn a b)) := by
  refine ⟨Product.base, ?_, fun a b => (product_iff_fn a b _).mpr rfl⟩
  intro a b o
  constructor
  · intro h
    cases h with
    | step hp hs => exact ⟨_, hp, hs⟩
  · rintro ⟨p, hp, hs⟩
    exact Product.step hp hs

/-- C5: `Congruent` is exactly structural identity: it resolves on every
pair of identical domain values and, since `congruentB` decides it, on
no structurally distinct pair. -/
theorem claim_C5 :
    (∀ a, Congruent a a) ∧
    (∀ a b, Congruent a b ↔ congruentB a b = true) ∧
    (∀ a b, congruentB a b = true ↔ a = b) := by
  have hb : ∀ a b : TNat, congruentB a b = true ↔ a = b := by
    intro a b
    simp [congruentB]
  refine ⟨Congruent.refl, ?_, hb⟩
  intro a b
  rw [hb]
  constructor
  · intro h
    cases h
    rfl
  · intro h
    subst h
    exact Congruent.refl a

/-- C6: on structurally distinct operands exactly one of `LessThan` and
`GreaterThan` resolves, and `LessThanOrEqual` / `GreaterThanOrEqual`
resolve consistently with them (equal to them on distinct operands). -/
theorem claim_C6 : ∀ a b : TNat, a ≠ b →
    ((lessThanB a b = true ∧ greaterThanB a b = false) ∨
      (lessThanB a b = false ∧ greaterThanB a b = true)) ∧
    lessThanOrEqualB a b = lessThanB a b ∧
    greaterThanOrEqualB a b = greaterThanB a b := by
  intro a b hne
  have hr : reify a ≠ reify b := fun h => hne (reify_injective a b h)
  refine ⟨?_, ?_, ?_⟩
  · by_cases h : reify a < reify b
    · left
      refine ⟨(lessThanB_eq a b).mpr h, ?_⟩
      cases hg : greaterThanB a b with
      | false => rfl
      | true =>
        have := (greaterThanB_eq a b).mp hg
        omega
    · right
      refine ⟨?_, (greaterThanB_eq a b).mpr (by omega)⟩
      cases hl : lessThanB a b with
      | false => rfl
      | true =>
        have := (lessThanB_eq a b).mp hl
        omega
  · rw [Bool.eq_iff_iff, lessThanOrEqualB_eq, lessThanB_eq]
    omega
  · rw [Bool.eq_iff_iff, greaterThanOrEqualB_eq, greaterThanB_eq]
    omega

/-- Witness for C6 at the distinct pair `(Zero, One)`. -/
theorem claim_C6_witness :
    ((lessThanB .Zero One = true ∧ greaterThanB .Zero One = false) ∨
      (lessThanB .Zero One = false ∧ greaterThanB .Zero One = true)) ∧
    lessThanOrEqualB .Zero One = lessThanB .Zero One ∧
    greaterThanOrEqualB .Zero One = greaterThanB .Zero One :=
  claim_C6 .Zero One (by decide)

/-- C7: subtraction/addition round-trip: whenever `LessThanOrEqual(B, A)`
resolves, `Difference(A, B)` resolves and `Sum(Difference(A, B), B) = A`. -/
theorem claim_C7 : ∀ a b : TNat, LessThanOrEqual b a →
    (differenceFn a b).isSome = true ∧
    Difference a b ((differenceFn a b).getD .Zero) ∧
    sumFn ((differenceFn a b).getD .Zero) b = a := by
  intro a b h
  obtain ⟨o, ho⟩ := h
  have hfn := (difference_iff_fn a b o).mp ho
  refine ⟨by rw [hfn]; rfl, ?_, ?_⟩
  · rw [hfn]
    simpa using ho
  · have hr := differenceFn_reify a b o hfn
    have hq : reify (sumFn o b) = reify a := by
      rw [reify_sumFn]
      omega
    rw [hfn]
    simpa using reify_injective (sumFn o b) a hq

/-- Witness for C7 at `A = Two`, `B = One` (so `One ≤ Two`). -/
theorem claim_C7_witness :
    (differenceFn Two One).isSome = true ∧
    Difference Two One ((differenceFn Two One).getD .Zero) ∧
    sumFn ((differenceFn Two One).getD .Zero) One = Two :=
  claim_C7 Two One ⟨One, Difference.step (Difference.base One)⟩

/-- C8: `Zero` is a two-sided identity for `Sum` and `Sum` is commutative
as a derived property (the resolved outputs coincide structurally). -/
theorem claim_C8 :
    (∀ a, Sum a .Zero a) ∧
    (∀ a, Sum .Zero a a) ∧
    (∀ a b, sumFn a b = sumFn b a) := by
  refine ⟨Sum.base, ?_, ?_⟩
  · intro a
    have h : sumFn .Zero a = a := by
      refine reify_injective _ a ?_
      rw [reify_sumFn]
      simp [reify]
    exact (sum_iff_fn _ _ _).mpr h
  · intro a b
    refine reify_injective _ _ ?_
    rw [reify_sumFn, reify_sumFn]
    omega

/-- C9: `Sum` is associative: the resolved output of
`Sum(Sum(A, B), C)` equals that of `Sum(A, Sum(B, C))` structurally. -/
theorem claim_C9 : ∀ a b c : TNat, sumFn (sumFn a b) c = sumFn a (sumFn b c) := by
  intro a b c
  refine reify_injective _ _ ?_
  simp only [reify_sumFn]
  omega

/-- C10: `LessThan` is irreflexive: `LessThan(A, A)` never resolves,
because `Difference(A, Successor(A))` has no defining case. -/
theorem claim_C10 :
    (∀ a, differenceFn a (.Successor a) = none) ∧
    (∀ a, lessThanB a a = false) ∧
    (∀ a b, LessThan a b ↔ lessThanB a b = true) := by
  have h1 : ∀ a : TNat, differenceFn a (.Successor a) = none := by
    intro a
    induction a with
    | Zero => rfl
    | Successor a ih => simpa [differenceFn] using ih
  refine ⟨h1, ?_, ?_⟩
  · intro a
    rw [lessThanB, h1 a]
    rfl
  · intro a b
    exact difference_exists_iff b (.Successor a)

end RustSqrtIrrational
